import Mathlib

/-!
Verification of the otel-tui HTTP query layer
(`tuiexporter/internal/httpserver/handlers.go`).

The Go source is shallowly embedded: each Go function of the filter /
sort / paginate engine, the topology deriver and the handlers becomes a
Lean definition over explicit record types.  Machine integers (`int`,
`int64`, `int32`, `time.Duration`, `time.Time` nanoseconds) are modelled
as `Int`; `time.Time` values are their nanosecond instants, so
`t1.Before(t2)` is `t1 < t2` and `t1.After(t2)` is `t2 < t1`.
Go maps used as sets are modelled by deduplicated lists; where the Go
code iterates a map to build a response slice, the iteration order is
nondeterministic, and theorems about such responses quantify over
permutations of the canonical key list.
-/

namespace OtelTui

/-- A span record (`telemetry.SpanData`), restricted to the fields the
query layer reads.  `statusCode` follows `ptrace`: 0 = Unset, 1 = Ok,
2 = Error.  `parentSpanId = ""` models an absent / all-zero parent span
id (`ParentSpanID().String()` of an empty id is `""`). -/
structure SpanData where
  traceId : String
  spanId : String
  parentSpanId : String
  name : String
  serviceName : String
  startTime : Int
  endTime : Int
  statusCode : Int
  receivedAt : Int
deriving DecidableEq, Repr

/-- A log record (`telemetry.LogData`), restricted to the fields the
query layer reads.  `timestamp` is `Log.Timestamp()` in nanoseconds. -/
structure LogData where
  serviceName : String
  severityText : String
  severityNumber : Int
  body : String
  traceId : String
  timestamp : Int
  receivedAt : Int
deriving DecidableEq, Repr

/-- A metric record (`telemetry.MetricData`), restricted to the fields
the query layer reads. -/
structure MetricData where
  serviceName : String
  metricName : String
  metricTypeText : String
  receivedAt : Int
deriving DecidableEq, Repr

/-- Span duration, `EndTimestamp - StartTimestamp` (nanoseconds). -/
def spanDuration (s : SpanData) : Int := s.endTime - s.startTime

/-- `matchAt n h` holds when the character list `n` starts the list `h`
(helper for the substring test of Go `strings.Contains`). -/
def matchAt : List Char → List Char → Bool
  | [], _ => true
  | _ :: _, [] => false
  | a :: as, b :: bs => a = b && matchAt as bs

/-- `containsSub h n`: the character list `n` occurs contiguously inside
`h` (Go `strings.Contains` on the underlying lists). -/
def containsSub (h n : List Char) : Bool :=
  match h with
  | [] => matchAt n []
  | _ :: t => matchAt n h || containsSub t n

/-- Go `strings.Contains haystack needle`. -/
def strContains (haystack needle : String) : Bool :=
  containsSub haystack.data needle.data

/-- The ASCII fragment of Go `strings.ToLower` (each ASCII capital
lowered independently).  Go's function applies Unicode simple
lowercasing, a table (`U+0130 → i`, `U+212A → k`, …) not reproduced
here: the claim about the severity mapping therefore quantifies over
an abstract lowering function having the properties Go's has (see
`severityNameToNumberWith`), and the remaining uses below sit inside
predicates that the verified claims leave disabled. -/
def toLowerStr (s : String) : String := ⟨s.data.map Char.toLower⟩

/-- `PaginationParams` (handlers.go).  The Go fields are `int`; the
parser only ever stores non-negative values, modelled as `Nat`. -/
structure PaginationParams where
  Offset : Nat
  Limit : Nat
deriving DecidableEq, Repr

/-- `TimeRangeParams` (handlers.go); `none` models a nil pointer. -/
structure TimeRangeParams where
  StartTime : Option Int
  EndTime : Option Int
deriving DecidableEq, Repr

/-- `TraceFilterParams` (handlers.go). -/
structure TraceFilterParams where
  Service : String
  Status : String
  MinDuration : Option Int
  MaxDuration : Option Int
  TimeRange : TimeRangeParams
  Pagination : PaginationParams
  SortBy : String
  SortOrder : String
deriving DecidableEq, Repr

/-- `LogFilterParams` (handlers.go). -/
structure LogFilterParams where
  Service : String
  Severity : String
  MinSeverity : Int
  Body : String
  TraceID : String
  TimeRange : TimeRangeParams
  Pagination : PaginationParams
deriving DecidableEq, Repr

/-- `MetricFilterParams` (handlers.go). -/
structure MetricFilterParams where
  Service : String
  MetricName : String
  MetricType : String
  TimeRange : TimeRangeParams
  Pagination : PaginationParams
deriving DecidableEq, Repr

/-- Digit run to a number: `some` when the list is a non-empty run of
ASCII digits (the digit part of Go `strconv.Atoi`). -/
def digitsToNat : List Char → Option Nat
  | [] => none
  | cs =>
    if cs.all (·.isDigit) then
      some (cs.foldl (fun a c => a * 10 + (c.toNat - 48)) 0)
    else
      none

/-- Go `strconv.Atoi`: optional sign, then a non-empty digit run, with
the 64-bit signed range check (out-of-range input returns an error in
Go, which the callers treat like a parse failure, hence `none`). -/
def goAtoi (s : String) : Option Int :=
  match s.data with
  | [] => none
  | c :: rest =>
    let p : Bool × List Char :=
      if c = '-' then (true, rest)
      else if c = '+' then (false, rest)
      else (false, c :: rest)
    match digitsToNat p.2 with
    | none => none
    | some n =>
      let v : Int := if p.1 then -(n : Int) else (n : Int)
      if v < -(2 ^ 63) ∨ 2 ^ 63 - 1 < v then none else some v

/-- `ParsePaginationParams` (handlers.go).  The two arguments are the
raw `offset` and `limit` query parameters; `""` is an absent
parameter (Go `r.URL.Query().Get` returns `""` then). -/
def ParsePaginationParams (offsetStr limitStr : String) : PaginationParams :=
  let off : Nat :=
    if offsetStr ≠ "" then
      match goAtoi offsetStr with
      | some v => if 0 ≤ v then v.toNat else 0
      | none => 0
    else 0
  let lim : Nat :=
    if limitStr ≠ "" then
      match goAtoi limitStr with
      | some v => if 0 < v then (if 1000 < v then 1000 else v.toNat) else 100
      | none => 100
    else 100
  ⟨off, lim⟩

/-- The `switch` body of `severityNameToNumber` (handlers.go), over
the result of the lowering function `low` standing for Go
`strings.ToLower`.  Go's lowering is Unicode simple lowercasing, whose
table is not reproduced here; the theorem about this mapping holds for
every `low` that is idempotent and fixes the six lowercase names —
properties Go's `strings.ToLower` has. -/
def severityNameToNumberWith (low : String → String) (name : String) : Int :=
  let l := low name
  if l = "trace" then 1
  else if l = "debug" then 5
  else if l = "info" then 9
  else if l = "warn" then 13
  else if l = "error" then 17
  else if l = "fatal" then 21
  else 0

/-- `severityNameToNumber` (handlers.go) with the lowering instantiated
to the ASCII fragment `toLowerStr`; agrees with the Go function on
ASCII names. -/
def severityNameToNumber (name : String) : Int :=
  severityNameToNumberWith toLowerStr name

/-- `matchesSpanFilters` (handlers.go): the early-return chain becomes
a cascade of `if … then false`. -/
def matchesSpanFilters (span : SpanData) (params : TraceFilterParams) : Bool :=
  if params.Service ≠ "" &&
      !(strContains (toLowerStr (span.serviceName ++ " " ++ span.name))
          (toLowerStr params.Service)) then false
  else if params.Status = "ok" && !(span.statusCode == 1) then false
  else if params.Status = "error" && !(span.statusCode == 2) then false
  else if params.Status = "unset" && !(span.statusCode == 0) then false
  else if (match params.MinDuration with
           | some d => decide (spanDuration span < d)
           | none => false) then false
  else if (match params.MaxDuration with
           | some d => decide (d < spanDuration span)
           | none => false) then false
  else if (match params.TimeRange.StartTime with
           | some t => decide (span.receivedAt < t)
           | none => false) then false
  else if (match params.TimeRange.EndTime with
           | some t => decide (t < span.receivedAt)
           | none => false) then false
  else true

/-- `matchesLogFilters` (handlers.go). -/
def matchesLogFilters (lg : LogData) (params : LogFilterParams) : Bool :=
  if params.Service ≠ "" &&
      !(strContains (toLowerStr lg.serviceName) (toLowerStr params.Service)) then false
  else if params.Severity ≠ "" &&
      !(strContains (toLowerStr lg.severityText) (toLowerStr params.Severity)) then false
  else if 0 < params.MinSeverity && decide (lg.severityNumber < params.MinSeverity) then false
  else if params.Body ≠ "" &&
      !(strContains (toLowerStr lg.body) (toLowerStr params.Body)) then false
  else if params.TraceID ≠ "" && !(lg.traceId == params.TraceID) then false
  else if (match params.TimeRange.StartTime with
           | some t => decide (lg.timestamp < t)
           | none => false) then false
  else if (match params.TimeRange.EndTime with
           | some t => decide (t < lg.timestamp)
           | none => false) then false
  else true

/-- `matchesMetricFilters` (handlers.go).  `strings.EqualFold` is
modelled as equality of the lower-cased strings. -/
def matchesMetricFilters (m : MetricData) (params : MetricFilterParams) : Bool :=
  if params.Service ≠ "" &&
      !(strContains (toLowerStr (m.serviceName ++ " " ++ m.metricName))
          (toLowerStr params.Service)) then false
  else if params.MetricName ≠ "" &&
      !(strContains (toLowerStr m.metricName) (toLowerStr params.MetricName)) then false
  else if params.MetricType ≠ "" &&
      !(toLowerStr m.metricTypeText == toLowerStr params.MetricType) then false
  else if (match params.TimeRange.StartTime with
           | some t => decide (m.receivedAt < t)
           | none => false) then false
  else if (match params.TimeRange.EndTime with
           | some t => decide (t < m.receivedAt)
           | none => false) then false
  else true

/-- `paginateSpans` (handlers.go): `spans[offset:min(offset+limit,len)]`,
empty once the offset reaches the end. -/
def paginateSpans (spans : List SpanData) (pagination : PaginationParams) : List SpanData :=
  if spans.length ≤ pagination.Offset then []
  else (spans.drop pagination.Offset).take pagination.Limit

/-- `paginateLogs` (handlers.go). -/
def paginateLogs (logs : List LogData) (pagination : PaginationParams) : List LogData :=
  if logs.length ≤ pagination.Offset then []
  else (logs.drop pagination.Offset).take pagination.Limit

/-- `paginateMetrics` (handlers.go). -/
def paginateMetrics (metrics : List MetricData) (pagination : PaginationParams) : List MetricData :=
  if metrics.length ≤ pagination.Offset then []
  else (metrics.drop pagination.Offset).take pagination.Limit

/-!
The three `sortSpansBy*` functions in handlers.go share one in-place
exchange sort ("simple bubble sort" in the source comment): for
`i < j`, `spans[i]` and `spans[j]` are swapped when the comparator says
they are out of order.  After the inner loop for a fixed `i`,
`spans[i]` holds a minimal element of the remaining suffix.  The
functional rendering below threads that inner loop (`exchPass`) through
an outer recursion (`exchangeSortAux`) driven by a fuel equal to the
list length, so that the definition is structural and computes.
-/

/-- One inner loop of the exchange sort at position `i`: `x` is the
current `spans[i]`, the list holds `spans[i+1..]`.  `q a b = true`
means the pair `(a, b)` in that order triggers a swap. -/
def exchPass (q : α → α → Bool) : α → List α → α × List α
  | x, [] => (x, [])
  | x, y :: ys =>
    if q x y then
      let p := exchPass q y ys
      (p.1, x :: p.2)
    else
      let p := exchPass q x ys
      (p.1, y :: p.2)

/-- Outer loop of the exchange sort, with explicit fuel. -/
def exchangeSortAux (q : α → α → Bool) : Nat → List α → List α
  | _, [] => []
  | 0, l => l
  | n + 1, x :: xs =>
    let p := exchPass q x xs
    p.1 :: exchangeSortAux q n p.2

/-- The exchange sort used by `sortSpansByTime` / `ByDuration` /
`ByName` in handlers.go. -/
def exchangeSort (q : α → α → Bool) (l : List α) : List α :=
  exchangeSortAux q l.length l

/-- Swap test on a sort key: ascending order swaps when
`f spans[i] > f spans[j]`, descending when `f spans[i] < f spans[j]`
(exactly the comparisons written out in the three Go sort helpers). -/
def swapOf {K : Type} [LinearOrder K] (f : α → K) (ascending : Bool) (a b : α) : Bool :=
  if ascending then decide (f b < f a) else decide (f a < f b)

/-- `sortSpansByTime` (handlers.go): `ReceivedAt.After` / `Before`. -/
def sortSpansByTime (spans : List SpanData) (ascending : Bool) : List SpanData :=
  exchangeSort (swapOf SpanData.receivedAt ascending) spans

/-- `sortSpansByDuration` (handlers.go). -/
def sortSpansByDuration (spans : List SpanData) (ascending : Bool) : List SpanData :=
  exchangeSort (swapOf spanDuration ascending) spans

/-- `sortSpansByName` (handlers.go): Go byte-lexicographic string
comparison, which on UTF-8 agrees with the codepoint-lexicographic
`String` order. -/
def sortSpansByName (spans : List SpanData) (ascending : Bool) : List SpanData :=
  exchangeSort (swapOf SpanData.name ascending) spans

/-- `sortSpans` (handlers.go): dispatch on `sort_by`; anything other
than `duration` and `name` (including the empty string and `time`)
falls through to the time sort, and anything other than `asc` sorts
descending. -/
def sortSpans (spans : List SpanData) (sortBy sortOrder : String) : List SpanData :=
  let ascending := sortOrder == "asc"
  if sortBy = "duration" then sortSpansByDuration spans ascending
  else if sortBy = "name" then sortSpansByName spans ascending
  else sortSpansByTime spans ascending

/-- The comparator `sortSpans` dispatches to (for reasoning about all
three branches uniformly). -/
def sortSwap (sortBy sortOrder : String) : SpanData → SpanData → Bool :=
  let ascending := sortOrder == "asc"
  if sortBy = "duration" then swapOf spanDuration ascending
  else if sortBy = "name" then swapOf SpanData.name ascending
  else swapOf SpanData.receivedAt ascending

/-- `FilterSpans` (handlers.go): predicate pass, sort, paginate. -/
def FilterSpans (spans : List SpanData) (params : TraceFilterParams) : List SpanData :=
  paginateSpans
    (sortSpans (spans.filter (fun s => matchesSpanFilters s params))
      params.SortBy params.SortOrder)
    params.Pagination

/-- `FilterLogs` (handlers.go): predicate pass, paginate (no sort). -/
def FilterLogs (logs : List LogData) (params : LogFilterParams) : List LogData :=
  paginateLogs (logs.filter (fun l => matchesLogFilters l params)) params.Pagination

/-- `FilterMetrics` (handlers.go): predicate pass, paginate (no sort). -/
def FilterMetrics (metrics : List MetricData) (params : MetricFilterParams) : List MetricData :=
  paginateMetrics (metrics.filter (fun m => matchesMetricFilters m params)) params.Pagination

/-- The `X-Total-Count` header of `handleGetTraces`:
`len(*spans)`, the length of the full input slice. -/
def xTotalCountTraces (spans : List SpanData) : Nat := spans.length

/-- The `X-Filtered-Count` header of `handleGetTraces`:
`len(filtered)` where `filtered = FilterSpans(*spans, filterParams)` —
i.e. the length of the already paginated result. -/
def xFilteredCountTraces (spans : List SpanData) (params : TraceFilterParams) : Nat :=
  (FilterSpans spans params).length

/-- The canonical key list of the `serviceSet` map built by
`handleGetServices` (and by `handleGetTraceByID` for one trace's
spans): the distinct service names of the spans.  The Go handler
returns these keys in nondeterministic map-iteration order; theorems
about response order quantify over permutations of this list. -/
def distinctServicesOfSpans (spans : List SpanData) : List String :=
  (spans.map SpanData.serviceName).dedup

/-- `getServicesByMetrics` (handlers.go).  Modelled from the spec: the
store code is not under src/; per the spec, `ApplyFilterMetrics("")`
followed by `GetFilteredMetrics` yields all metric records in insertion
order, so the result is the distinct service names of all metrics. -/
def getServicesByMetrics (metrics : List MetricData) : List String :=
  (metrics.map MetricData.serviceName).dedup

/-- `getServicesByLogs` (handlers.go).  Modelled from the spec: as for
metrics, `ApplyFilterLogs("")` + `GetFilteredLogs` yield all logs. -/
def getServicesByLogs (logs : List LogData) : List String :=
  (logs.map LogData.serviceName).dedup

/-- `getAllServices` (handlers.go): union of span, metric and log
service names, excluding `""` and names containing `"unknown"`
(case-sensitive `strings.Contains`).  Note: this function has no
caller in the source; `handleGetServices` does not use it. -/
def getAllServices (spans : List SpanData) (metrics : List MetricData)
    (logs : List LogData) : List String :=
  ((spans.map SpanData.serviceName ++ getServicesByMetrics metrics ++
      getServicesByLogs logs).dedup).filter
    (fun s => s ≠ "" && !(strContains s "unknown"))

/-- `handleGetServices` (handlers.go): collects service names from the
spans only, with no exclusions; the response body is the key list of
that map (canonical representative; iteration order nondeterministic). -/
def handleGetServicesBody (spans : List SpanData) : List String :=
  distinctServicesOfSpans spans

/-- `TopologyEdgeJSON` (models.go): one edge of the `/api/topology`
response. -/
structure TopologyEdgeJSON where
  Source : String
  Target : String
  Count : Nat
deriving DecidableEq, Repr

/-- Accumulator of `buildTopology` (handlers.go): the `nodes` map is a
set of service names (depth is always 0, see `topologyNodes`); the
`edges` map is keyed by the STRING `parentService + "->" + serviceName`
(handlers.go line `edgeKey := parentServiceName + "->" + serviceName`),
so two distinct service pairs whose concatenations coincide share one
entry.  Lists keep first-insertion order as the canonical order. -/
structure TopoAcc where
  nodes : List String
  edges : List (String × TopologyEdgeJSON)
deriving DecidableEq, Repr

/-- Map insert for the `nodes` set: add if not present. -/
def addNode (s : String) (ns : List String) : List String :=
  if s ∈ ns then ns else ns ++ [s]

/-- `cache.GetSpanByID`: the span-id index of the trace cache, modelled
as an association list (the telemetry package is not under src/). -/
def findSpan : List (String × SpanData) → String → Option SpanData
  | [], _ => none
  | (k, v) :: t, id => if k = id then some v else findSpan t id

/-- Map update for the `edges` map: increment the count of the entry
at the key (keeping its `Source`/`Target`, as `edge.Count++` does), or
insert a fresh entry with count 1. -/
def bumpEdge (k src tgt : String) :
    List (String × TopologyEdgeJSON) → List (String × TopologyEdgeJSON)
  | [] => [(k, ⟨src, tgt, 1⟩)]
  | (k2, e) :: t =>
    if k = k2 then (k2, { e with Count := e.Count + 1 }) :: t
    else (k2, e) :: bumpEdge k src tgt t

/-- Count stored in the `edges` map at a key (0 when absent). -/
def findCount : List (String × TopologyEdgeJSON) → String → Nat
  | [], _ => 0
  | (k2, e) :: t, k => if k2 = k then e.Count else findCount t k

/-- The body of the `buildTopology` loop (handlers.go) for one span:
add the span's own service node; if the parent span id is non-empty and
resolves in the span-id index and the parent's service differs, add the
parent's node and bump the edge `(parentService, service)`. -/
def topoStep (cache : List (String × SpanData)) (acc : TopoAcc) (span : SpanData) : TopoAcc :=
  let acc1 : TopoAcc := { acc with nodes := addNode span.serviceName acc.nodes }
  if span.parentSpanId ≠ "" then
    match findSpan cache span.parentSpanId with
    | some parentSpan =>
      if parentSpan.serviceName ≠ span.serviceName then
        { nodes := addNode parentSpan.serviceName acc1.nodes,
          edges := bumpEdge (parentSpan.serviceName ++ "->" ++ span.serviceName)
            parentSpan.serviceName span.serviceName acc1.edges }
      else acc1
    | none => acc1
  else acc1

/-- `buildTopology` (handlers.go): fold the loop body over the span
slice starting from empty maps. -/
def buildTopology (spans : List SpanData) (cache : List (String × SpanData)) : TopoAcc :=
  spans.foldl (topoStep cache) ⟨[], []⟩

/-- The node array of the `/api/topology` response (canonical order):
every node carries `Depth: 0` ("Will calculate later" in the source —
it never is). -/
def topologyNodes (spans : List SpanData) (cache : List (String × SpanData)) :
    List (String × Nat) :=
  (buildTopology spans cache).nodes.map (fun s => (s, 0))

/-- A span witnesses the topology edge `(p, c)`: its parent span id is
non-empty, resolves in the span-id index to a span of service `p ≠ c`,
and the span itself belongs to service `c`. -/
def edgeWitness (cache : List (String × SpanData)) (p c : String) (span : SpanData) : Bool :=
  decide (span.parentSpanId ≠ "") &&
    (match findSpan cache span.parentSpanId with
     | some parentSpan =>
       decide (parentSpan.serviceName = p) && decide (span.serviceName = c) &&
         decide (p ≠ c)
     | none => false)

/-- A span witnesses the edge KEY `kstr`: its parent resolves to a span
of a different service and the concatenation
`parentService ++ "->" ++ service` equals `kstr` — the exact condition
under which `buildTopology` bumps the entry at `kstr`. -/
def edgeKeyWitness (cache : List (String × SpanData)) (kstr : String) (span : SpanData) : Bool :=
  decide (span.parentSpanId ≠ "") &&
    (match findSpan cache span.parentSpanId with
     | some parentSpan =>
       decide (parentSpan.serviceName ≠ span.serviceName) &&
         decide (parentSpan.serviceName ++ "->" ++ span.serviceName = kstr)
     | none => false)

/-- Well-formedness of one `edges` entry: its key is the concatenation
of its `Source` and `Target`, its `Source` is the service of some span
the index resolves to, and its `Target` is the service of some stored
span.  `buildTopology` maintains this for every entry. -/
def edgeEntryOK (spans : List SpanData) (cache : List (String × SpanData))
    (entry : String × TopologyEdgeJSON) : Prop :=
  entry.1 = entry.2.Source ++ "->" ++ entry.2.Target ∧
  (∃ ps ∈ cache.map Prod.snd, entry.2.Source = ps.serviceName) ∧
  (∃ sp ∈ spans, entry.2.Target = sp.serviceName)

/-- One span's contribution to the `nodes` set of `buildTopology`: its
own service, and its parent's service when the parent resolves in the
span-id index and belongs to a different service. -/
def nodeContrib (cache : List (String × SpanData)) (s : String) (span : SpanData) : Bool :=
  decide (span.serviceName = s) ||
    (decide (span.parentSpanId ≠ "") &&
      match findSpan cache span.parentSpanId with
      | some parentSpan =>
        decide (parentSpan.serviceName = s) &&
          decide (parentSpan.serviceName ≠ span.serviceName)
      | none => false)

/-- Trace filter descriptor with only a time range configured (every
other predicate disabled, pagination at its defaults). -/
def traceParamsTimeOnly (st et : Option Int) : TraceFilterParams :=
  ⟨"", "", none, none, ⟨st, et⟩, ⟨0, 100⟩, "", ""⟩

/-- Log filter descriptor with only a time range configured. -/
def logParamsTimeOnly (st et : Option Int) : LogFilterParams :=
  ⟨"", "", 0, "", "", ⟨st, et⟩, ⟨0, 100⟩⟩

/-- Log filter descriptor with only a minimum-severity threshold. -/
def logParamsMinSev (t : Int) : LogFilterParams :=
  ⟨"", "", t, "", "", ⟨none, none⟩, ⟨0, 100⟩⟩

/-- Metric filter descriptor with only a time range configured. -/
def metricParamsTimeOnly (st et : Option Int) : MetricFilterParams :=
  ⟨"", "", "", ⟨st, et⟩, ⟨0, 100⟩⟩

/-- The ordering the claim about `sortSpans` asks for, without the
tie-break: the non-strict order on the requested key (`duration`,
`name`, anything else — including the empty default — the received-at
time), ascending for `asc` and descending otherwise. -/
def sortRelation (sortBy sortOrder : String) (a b : SpanData) : Prop :=
  if sortBy = "duration" then
    (if sortOrder = "asc" then spanDuration a ≤ spanDuration b
     else spanDuration b ≤ spanDuration a)
  else if sortBy = "name" then
    (if sortOrder = "asc" then a.name ≤ b.name else b.name ≤ a.name)
  else
    (if sortOrder = "asc" then a.receivedAt ≤ b.receivedAt
     else b.receivedAt ≤ a.receivedAt)

/-- Span literal helper for concrete scenarios: trace id `"t"`, span
name `"op"`, metadata fields in the order span id, parent span id,
service, status code, received-at, start, end. -/
def mkSpan (spanId parentSpanId service : String) (status recv startT endT : Int) : SpanData :=
  ⟨"t", spanId, parentSpanId, "op", service, startT, endT, status, recv⟩

/-- Scenario for the pagination-header claim: ten spans, two with
status `Error` (2), five `Ok` (1), three `Unset` (0). -/
def c1spans : List SpanData :=
  [mkSpan "1" "" "svc" 2 1 0 10, mkSpan "2" "" "svc" 2 2 0 10,
   mkSpan "3" "" "svc" 1 3 0 10, mkSpan "4" "" "svc" 1 4 0 10,
   mkSpan "5" "" "svc" 1 5 0 10, mkSpan "6" "" "svc" 1 6 0 10,
   mkSpan "7" "" "svc" 1 7 0 10, mkSpan "8" "" "svc" 0 8 0 10,
   mkSpan "9" "" "svc" 0 9 0 10, mkSpan "10" "" "svc" 0 10 0 10]

/-- `GET /api/traces?status=error&limit=1`. -/
def c1params : TraceFilterParams :=
  ⟨"", "error", none, none, ⟨none, none⟩, ⟨0, 1⟩, "time", "desc"⟩

/-- Scenario for the services claim: one span whose resource carried no
`service.name` (ingest resolves it to the literal `"unknown"`). -/
def c2spans : List SpanData := [mkSpan "1" "" "unknown" 0 1 0 10]

/-- A metric from service `"alpha"` present in the same store. -/
def c2metrics : List MetricData := [⟨"alpha", "m", "Gauge", 1⟩]

/-- Scenario for the determinism claim: spans of two services. -/
def c3spans : List SpanData :=
  [mkSpan "1" "" "a" 0 1 0 10, mkSpan "2" "" "b" 0 2 0 10]

/-- Scenario for the sort claim: two spans of equal duration whose
received-at order is ascending in the input. -/
def c4spans : List SpanData :=
  [mkSpan "1" "" "svc" 0 1 0 10, mkSpan "2" "" "svc" 0 2 0 10]

/-- Scenario for the idempotence claim: two spans. -/
def c5spans : List SpanData :=
  [mkSpan "1" "" "svc" 0 2 0 10, mkSpan "2" "" "svc" 0 1 0 10]

/-- A filter descriptor with offset 1 and otherwise defaults. -/
def c5params : TraceFilterParams :=
  ⟨"", "", none, none, ⟨none, none⟩, ⟨1, 100⟩, "time", "desc"⟩

/-- Three spans for the pagination-totality witness. -/
def c6spans : List SpanData :=
  [mkSpan "1" "" "svc" 0 1 0 10, mkSpan "2" "" "svc" 0 2 0 10,
   mkSpan "3" "" "svc" 0 3 0 10]

/-- One log record for the pagination-totality witness. -/
def c6logs : List LogData := [⟨"svc", "INFO", 9, "hello", "t", 1, 1⟩]

/-- One log record for the minimum-severity witness. -/
def c8log : LogData := ⟨"svc", "WARN", 17, "boom", "t", 5, 5⟩

/-- Topology witness scenario: `front → back → db` plus a root span. -/
def c7spans : List SpanData :=
  [mkSpan "a" "" "front" 0 1 0 10, mkSpan "b" "a" "back" 0 2 0 10,
   mkSpan "c" "b" "db" 0 3 0 10]

/-- Span-id index for the topology witness, consistent with `c7spans`. -/
def c7cache : List (String × SpanData) :=
  [("a", mkSpan "a" "" "front" 0 1 0 10), ("b", mkSpan "b" "a" "back" 0 2 0 10),
   ("c", mkSpan "c" "b" "db" 0 3 0 10)]

/-- Topology counterexample scenario: service names containing the
literal `"->"`.  The pair `("a", "b->c")` and the pair `("a->b", "c")`
concatenate to the same edge key `"a->b->c"`. -/
def c7badspans : List SpanData :=
  [mkSpan "a1" "" "a" 0 1 0 10, mkSpan "a2" "" "a->b" 0 2 0 10,
   mkSpan "a3" "a1" "b->c" 0 3 0 10, mkSpan "a4" "a2" "c" 0 4 0 10]

/-- Span-id index for the counterexample, consistent with
`c7badspans`. -/
def c7badcache : List (String × SpanData) :=
  [("a1", mkSpan "a1" "" "a" 0 1 0 10), ("a2", mkSpan "a2" "" "a->b" 0 2 0 10),
   ("a3", mkSpan "a3" "a1" "b->c" 0 3 0 10), ("a4", mkSpan "a4" "a2" "c" 0 4 0 10)]

/-! ### Lemmas: the exchange sort -/

theorem exchPass_length (q : α → α → Bool) (x : α) (l : List α) :
    (exchPass q x l).2.length = l.length := by
  induction l generalizing x with
  | nil => rfl
  | cons y ys ih =>
    cases h : q x y <;> simp [exchPass, h, ih]

theorem exchPass_perm (q : α → α → Bool) (x : α) (l : List α) :
    ((exchPass q x l).1 :: (exchPass q x l).2).Perm (x :: l) := by
  induction l generalizing x with
  | nil => simp [exchPass]
  | cons y ys ih =>
    cases h : q x y with
    | true =>
      simp only [exchPass, h, if_pos]
      exact (List.Perm.swap x _ _).trans (List.Perm.cons x (ih y))
    | false =>
      simp only [exchPass, h, Bool.false_eq_true, if_neg, not_false_iff]
      exact ((List.Perm.swap y _ _).trans (List.Perm.cons y (ih x))).trans
        (List.Perm.swap x y ys)

theorem exchPass_min (q : α → α → Bool)
    (hirr : ∀ a, q a a = false)
    (htrans : ∀ a b c, q a b = false → q b c = false → q a c = false)
    (hmix : ∀ a b c, q a b = false → q c b = true → q a c = false)
    (x : α) (l : List α) (z : α) (hz : z ∈ x :: l) :
    q (exchPass q x l).1 z = false := by
  induction l generalizing x z with
  | nil =>
    simp only [List.mem_singleton] at hz
    subst hz
    simpa [exchPass] using hirr z
  | cons y ys ih =>
    cases h : q x y with
    | true =>
      simp only [exchPass, h, if_pos]
      rcases List.mem_cons.mp hz with rfl | hz2
      · exact hmix _ y z (ih y y (List.mem_cons_self y ys)) h
      · exact ih y z hz2
    | false =>
      simp only [exchPass, h, Bool.false_eq_true, if_neg, not_false_iff]
      rcases List.mem_cons.mp hz with rfl | hz2
      · exact ih z z (List.mem_cons_self z ys)
      · rcases List.mem_cons.mp hz2 with rfl | hz3
        · exact htrans _ x z (ih x x (List.mem_cons_self x ys)) h
        · exact ih x z (List.mem_cons_of_mem x hz3)

theorem exchPass_id (q : α → α → Bool) (x : α) (l : List α)
    (h1 : ∀ y ∈ l, q x y = false) : exchPass q x l = (x, l) := by
  induction l with
  | nil => rfl
  | cons y ys ih =>
    have hy : q x y = false := h1 y (List.mem_cons_self y ys)
    simp only [exchPass, hy, Bool.false_eq_true, if_neg, not_false_iff]
    rw [ih (fun z hz => h1 z (List.mem_cons_of_mem y hz))]

theorem exchangeSortAux_perm (q : α → α → Bool) :
    ∀ (n : Nat) (l : List α), l.length ≤ n → (exchangeSortAux q n l).Perm l := by
  intro n
  induction n with
  | zero =>
    intro l h
    cases l with
    | nil => simp [exchangeSortAux]
    | cons x xs => simp at h
  | succ n ih =>
    intro l h
    cases l with
    | nil => simp [exchangeSortAux]
    | cons x xs =>
      simp only [exchangeSortAux]
      have h2 : (exchPass q x xs).2.length ≤ n := by
        rw [exchPass_length]
        simpa using h
      exact (List.Perm.cons _ (ih _ h2)).trans (exchPass_perm q x xs)

theorem exchangeSortAux_pairwise (q : α → α → Bool)
    (hirr : ∀ a, q a a = false)
    (htrans : ∀ a b c, q a b = false → q b c = false → q a c = false)
    (hmix : ∀ a b c, q a b = false → q c b = true → q a c = false) :
    ∀ (n : Nat) (l : List α), l.length ≤ n →
      (exchangeSortAux q n l).Pairwise (fun a b => q a b = false) := by
  intro n
  induction n with
  | zero =>
    intro l h
    cases l with
    | nil => simp [exchangeSortAux]
    | cons x xs => simp at h
  | succ n ih =>
    intro l h
    cases l with
    | nil => simp [exchangeSortAux]
    | cons x xs =>
      simp only [exchangeSortAux]
      have h2 : (exchPass q x xs).2.length ≤ n := by
        rw [exchPass_length]
        simpa using h
      refine List.pairwise_cons.mpr ⟨?_, ih _ h2⟩
      intro z hz
      have hz2 : z ∈ (exchPass q x xs).2 :=
        (exchangeSortAux_perm q n _ h2).mem_iff.mp hz
      have hz3 : z ∈ x :: xs :=
        (exchPass_perm q x xs).mem_iff.mp (List.mem_cons_of_mem _ hz2)
      exact exchPass_min q hirr htrans hmix x xs z hz3

theorem exchangeSortAux_of_pairwise (q : α → α → Bool) :
    ∀ (n : Nat) (l : List α), l.Pairwise (fun a b => q a b = false) →
      exchangeSortAux q n l = l := by
  intro n
  induction n with
  | zero =>
    intro l _
    cases l <;> rfl
  | succ n ih =>
    intro l h
    cases l with
    | nil => rfl
    | cons x xs =>
      obtain ⟨hx, hxs⟩ := List.pairwise_cons.mp h
      simp only [exchangeSortAux, exchPass_id q x xs hx]
      rw [ih xs hxs]

theorem exchangeSort_perm (q : α → α → Bool) (l : List α) :
    (exchangeSort q l).Perm l :=
  exchangeSortAux_perm q l.length l le_rfl

theorem exchangeSort_pairwise (q : α → α → Bool)
    (hirr : ∀ a, q a a = false)
    (htrans : ∀ a b c, q a b = false → q b c = false → q a c = false)
    (hmix : ∀ a b c, q a b = false → q c b = true → q a c = false)
    (l : List α) :
    (exchangeSort q l).Pairwise (fun a b => q a b = false) :=
  exchangeSortAux_pairwise q hirr htrans hmix l.length l le_rfl

theorem exchangeSort_of_pairwise (q : α → α → Bool) (l : List α)
    (h : l.Pairwise (fun a b => q a b = false)) : exchangeSort q l = l :=
  exchangeSortAux_of_pairwise q l.length l h

/-! ### Lemmas: the comparators -/

theorem swapOf_irrefl {K : Type} [LinearOrder K] (f : α → K) (asc : Bool) (a : α) :
    swapOf f asc a a = false := by
  cases asc <;> simp [swapOf]

theorem swapOf_trans {K : Type} [LinearOrder K] (f : α → K) (asc : Bool) (a b c : α) :
    swapOf f asc a b = false → swapOf f asc b c = false → swapOf f asc a c = false := by
  cases asc <;>
    simp only [swapOf, Bool.false_eq_true, if_neg, if_pos, not_false_iff,
      decide_eq_false_iff_not, not_lt] <;>
    intro h1 h2
  · exact le_trans h2 h1
  · exact le_trans h1 h2

theorem swapOf_mix {K : Type} [LinearOrder K] (f : α → K) (asc : Bool) (a b c : α) :
    swapOf f asc a b = false → swapOf f asc c b = true → swapOf f asc a c = false := by
  cases asc <;>
    simp only [swapOf, Bool.false_eq_true, if_neg, if_pos, not_false_iff,
      decide_eq_false_iff_not, decide_eq_true_eq, not_lt] <;>
    intro h1 h2
  · exact le_trans (le_of_lt h2) h1
  · exact le_trans h1 (le_of_lt h2)

theorem sortSwap_irrefl (sortBy sortOrder : String) (a : SpanData) :
    sortSwap sortBy sortOrder a a = false := by
  unfold sortSwap
  split_ifs <;> apply swapOf_irrefl

theorem sortSwap_trans (sortBy sortOrder : String) (a b c : SpanData) :
    sortSwap sortBy sortOrder a b = false → sortSwap sortBy sortOrder b c = false →
      sortSwap sortBy sortOrder a c = false := by
  unfold sortSwap
  split_ifs <;> apply swapOf_trans

theorem sortSwap_mix (sortBy sortOrder : String) (a b c : SpanData) :
    sortSwap sortBy sortOrder a b = false → sortSwap sortBy sortOrder c b = true →
      sortSwap sortBy sortOrder a c = false := by
  unfold sortSwap
  split_ifs <;> apply swapOf_mix

theorem sortSpans_eq_exchange (spans : List SpanData) (sortBy sortOrder : String) :
    sortSpans spans sortBy sortOrder = exchangeSort (sortSwap sortBy sortOrder) spans := by
  unfold sortSpans sortSwap sortSpansByDuration sortSpansByName sortSpansByTime
  split_ifs <;> rfl

theorem sortSpans_perm (spans : List SpanData) (sortBy sortOrder : String) :
    (sortSpans spans sortBy sortOrder).Perm spans := by
  rw [sortSpans_eq_exchange]
  exact exchangeSort_perm _ _

theorem sortSpans_pairwise (spans : List SpanData) (sortBy sortOrder : String) :
    (sortSpans spans sortBy sortOrder).Pairwise
      (fun a b => sortSwap sortBy sortOrder a b = false) := by
  rw [sortSpans_eq_exchange]
  exact exchangeSort_pairwise _ (sortSwap_irrefl _ _) (sortSwap_trans _ _)
    (sortSwap_mix _ _) spans

theorem sortSpans_of_pairwise (spans : List SpanData) (sortBy sortOrder : String)
    (h : spans.Pairwise (fun a b => sortSwap sortBy sortOrder a b = false)) :
    sortSpans spans sortBy sortOrder = spans := by
  rw [sortSpans_eq_exchange]
  exact exchangeSort_of_pairwise _ _ h

/-! ### Lemmas: pagination -/

theorem paginateSpans_eq (l : List SpanData) (p : PaginationParams) :
    paginateSpans l p = (l.drop p.Offset).take p.Limit := by
  unfold paginateSpans
  split_ifs with h
  · rw [List.drop_eq_nil_of_le h, List.take_nil]
  · rfl

theorem paginateLogs_eq (l : List LogData) (p : PaginationParams) :
    paginateLogs l p = (l.drop p.Offset).take p.Limit := by
  unfold paginateLogs
  split_ifs with h
  · rw [List.drop_eq_nil_of_le h, List.take_nil]
  · rfl

theorem joinPages (L : Nat) :
    ∀ (k : Nat) (l : List α), l.length ≤ k * L →
      ((List.range k).map (fun i => (l.drop (i * L)).take L)).flatten = l := by
  intro k
  induction k with
  | zero =>
    intro l hk
    have hnil : l = [] := List.eq_nil_of_length_eq_zero (Nat.le_zero.mp (by simpa using hk))
    subst hnil
    simp
  | succ k ih =>
    intro l hk
    rw [List.range_succ_eq_map, List.map_cons, List.map_map]
    have hcomp : ((fun i => (l.drop (i * L)).take L) ∘ Nat.succ) =
        fun i => (((l.drop L).drop (i * L)).take L) := by
      funext i
      simp only [Function.comp_apply]
      have harith : Nat.succ i * L = L + i * L := by
        rw [Nat.succ_mul, Nat.add_comm]
      rw [harith, ← List.drop_drop]
    rw [hcomp]
    have hlen : (l.drop L).length ≤ k * L := by
      rw [List.length_drop, Nat.sub_le_iff_le_add]
      refine le_of_le_of_eq hk ?_
      rw [Nat.succ_mul]
    rw [List.flatten_cons, ih (l.drop L) hlen]
    simp only [Nat.zero_mul, List.drop_zero]
    exact List.take_append_drop L l

/-! ### Lemmas: lower-casing -/

theorem charToLower_idem (c : Char) : c.toLower.toLower = c.toLower := by
  unfold Char.toLower
  by_cases h : c.toNat ≥ 65 ∧ c.toNat ≤ 90
  · rw [if_pos h]
    have hv : (c.toNat + 32).isValidChar := by
      left
      omega
    have ht : (Char.ofNat (c.toNat + 32)).toNat = c.toNat + 32 := by
      rw [Char.ofNat, dif_pos hv]
      simp [Char.ofNatAux, Char.toNat, UInt32.toNat]
    rw [if_neg]
    rw [ht]
    omega
  · rw [if_neg h, if_neg h]

theorem toLowerStr_idem (s : String) : toLowerStr (toLowerStr s) = toLowerStr s := by
  unfold toLowerStr
  simp only [List.map_map]
  congr 1
  exact List.map_congr_left (fun a _ => charToLower_idem a)

/-! ### Lemmas: topology -/

theorem addNode_mem (s t : String) (ns : List String) :
    s ∈ addNode t ns ↔ s ∈ ns ∨ s = t := by
  unfold addNode
  split_ifs with h
  · constructor
    · exact Or.inl
    · rintro (hs | rfl)
      · exact hs
      · exact h
  · simp [List.mem_append]

theorem findSpan_mem (cache : List (String × SpanData)) (i : String) (sp : SpanData)
    (h : findSpan cache i = some sp) : sp ∈ cache.map Prod.snd := by
  induction cache with
  | nil => simp [findSpan] at h
  | cons e t ih =>
    obtain ⟨k, v⟩ := e
    by_cases hk : k = i
    · simp only [findSpan, hk, if_pos, Option.some.injEq] at h
      simp [← h]
    · simp only [findSpan, hk, if_neg, not_false_iff] at h
      exact List.mem_cons_of_mem _ (ih h)

theorem bumpEdge_findCount (k src tgt k2 : String) (l : List (String × TopologyEdgeJSON)) :
    findCount (bumpEdge k src tgt l) k2 = findCount l k2 + (if k2 = k then 1 else 0) := by
  induction l with
  | nil =>
    by_cases h : k2 = k
    · subst h
      simp [bumpEdge, findCount]
    · simp [bumpEdge, findCount, h, Ne.symm h]
  | cons f t ih =>
    obtain ⟨k3, e3⟩ := f
    by_cases h3 : k = k3
    · subst h3
      by_cases h2 : k = k2
      · subst h2
        simp [bumpEdge, findCount]
      · simp [bumpEdge, findCount, h2, Ne.symm h2]
    · by_cases h2 : k3 = k2
      · subst h2
        have hne : ¬ k3 = k := fun h => h3 h.symm
        simp [bumpEdge, findCount, h3, hne, Ne.symm hne]
      · simp [bumpEdge, findCount, h3, h2, ih]

theorem bumpEdge_pos (k src tgt : String) (l : List (String × TopologyEdgeJSON))
    (h : ∀ e ∈ l, 0 < e.2.Count) : ∀ e ∈ bumpEdge k src tgt l, 0 < e.2.Count := by
  induction l with
  | nil =>
    intro e he
    simp only [bumpEdge, List.mem_singleton] at he
    subst he
    exact Nat.one_pos
  | cons f t ih =>
    obtain ⟨k3, e3⟩ := f
    intro e he
    by_cases h3 : k = k3
    · simp only [bumpEdge, h3, if_pos, List.mem_cons] at he
      rcases he with rfl | he2
      · exact Nat.succ_pos e3.Count
      · exact h e (List.mem_cons_of_mem _ he2)
    · simp only [bumpEdge, h3, if_neg, not_false_iff, List.mem_cons] at he
      rcases he with rfl | he2
      · exact h _ (List.mem_cons_self _ _)
      · exact ih (fun e2 he3 => h e2 (List.mem_cons_of_mem _ he3)) e he2

theorem findCount_pos_iff (l : List (String × TopologyEdgeJSON))
    (h : ∀ e ∈ l, 0 < e.2.Count) (k : String) :
    0 < findCount l k ↔ k ∈ l.map Prod.fst := by
  induction l with
  | nil => simp [findCount]
  | cons f t ih =>
    obtain ⟨k3, e3⟩ := f
    by_cases h3 : k3 = k
    · have hc : findCount ((k3, e3) :: t) k = e3.Count := by simp [findCount, h3]
      rw [hc]
      simp only [List.map_cons, List.mem_cons]
      constructor
      · intro _
        exact Or.inl h3.symm
      · intro _
        exact h _ (List.mem_cons_self _ _)
    · simp only [findCount, h3, if_neg, not_false_iff, List.map_cons, List.mem_cons]
      rw [ih (fun e2 he => h e2 (List.mem_cons_of_mem _ he))]
      constructor
      · exact Or.inr
      · rintro (rfl | hk)
        · exact absurd rfl h3
        · exact hk

theorem topoStep_nodes (cache : List (String × SpanData)) (acc : TopoAcc)
    (span : SpanData) (s : String) :
    s ∈ (topoStep cache acc span).nodes ↔
      s ∈ acc.nodes ∨ nodeContrib cache s span = true := by
  by_cases hp : span.parentSpanId = ""
  · simp only [topoStep, hp, ne_eq, not_true_eq_false, if_neg, not_false_iff,
      nodeContrib, decide_eq_true_eq, Bool.or_eq_true, Bool.and_eq_true]
    rw [addNode_mem]
    simp [hp]
    tauto
  · cases hf : findSpan cache span.parentSpanId with
    | none =>
      simp only [topoStep, hp, ne_eq, not_false_iff, if_pos, hf,
        nodeContrib, decide_eq_true_eq, Bool.or_eq_true, Bool.and_eq_true]
      rw [addNode_mem]
      simp [hf]
      tauto
    | some ps =>
      by_cases hs : ps.serviceName = span.serviceName
      · simp only [topoStep, hp, ne_eq, not_false_iff, if_pos, hf, hs,
          not_true_eq_false, if_neg, nodeContrib, decide_eq_true_eq,
          Bool.or_eq_true, Bool.and_eq_true]
        rw [addNode_mem]
        simp [hf, hs]
        tauto
      · simp only [topoStep, hp, ne_eq, not_false_iff, if_pos, hf, hs,
          nodeContrib, decide_eq_true_eq, Bool.or_eq_true, Bool.and_eq_true]
        rw [addNode_mem, addNode_mem]
        simp [hf, hs, hp]
        tauto

theorem topoStep_edges (cache : List (String × SpanData)) (acc : TopoAcc)
    (span : SpanData) (kstr : String) :
    findCount (topoStep cache acc span).edges kstr =
      findCount acc.edges kstr + (if edgeKeyWitness cache kstr span then 1 else 0) := by
  by_cases hp : span.parentSpanId = ""
  · simp [topoStep, hp, edgeKeyWitness]
  · cases hf : findSpan cache span.parentSpanId with
    | none => simp [topoStep, hp, hf, edgeKeyWitness]
    | some ps =>
      by_cases hs : ps.serviceName = span.serviceName
      · simp [topoStep, hp, hf, hs, edgeKeyWitness]
      · simp only [topoStep, hp, ne_eq, not_false_iff, if_pos, hf, hs]
        rw [bumpEdge_findCount]
        congr 1
        have hwit : (edgeKeyWitness cache kstr span = true) ↔
            (kstr = ps.serviceName ++ "->" ++ span.serviceName) := by
          simp only [edgeKeyWitness, hf, ne_eq, Bool.and_eq_true, decide_eq_true_eq]
          constructor
          · rintro ⟨_, _, hk⟩
            exact hk.symm
          · rintro rfl
            exact ⟨hp, hs, rfl⟩
        simp only [hwit]

theorem topoStep_edges_pos (cache : List (String × SpanData)) (acc : TopoAcc)
    (span : SpanData) (h : ∀ e ∈ acc.edges, 0 < e.2.Count) :
    ∀ e ∈ (topoStep cache acc span).edges, 0 < e.2.Count := by
  by_cases hp : span.parentSpanId = ""
  · simpa [topoStep, hp] using h
  · cases hf : findSpan cache span.parentSpanId with
    | none => simpa [topoStep, hp, hf] using h
    | some ps =>
      by_cases hs : ps.serviceName = span.serviceName
      · simpa [topoStep, hp, hf, hs] using h
      · simp only [topoStep, hp, ne_eq, not_false_iff, if_pos, hf, hs]
        exact bumpEdge_pos _ _ _ _ h

theorem foldTopo_nodes (cache : List (String × SpanData)) :
    ∀ (l : List SpanData) (acc : TopoAcc) (s : String),
      (s ∈ (l.foldl (topoStep cache) acc).nodes ↔
        s ∈ acc.nodes ∨ ∃ sp ∈ l, nodeContrib cache s sp = true) := by
  intro l
  induction l with
  | nil => simp
  | cons sp t ih =>
    intro acc s
    rw [List.foldl_cons, ih (topoStep cache acc sp) s, topoStep_nodes]
    simp only [List.mem_cons]
    constructor
    · rintro ((ha | hc) | ⟨sp2, hsp2, hc2⟩)
      · exact Or.inl ha
      · exact Or.inr ⟨sp, Or.inl rfl, hc⟩
      · exact Or.inr ⟨sp2, Or.inr hsp2, hc2⟩
    · rintro (ha | ⟨sp2, (rfl | hsp2), hc2⟩)
      · exact Or.inl (Or.inl ha)
      · exact Or.inl (Or.inr hc2)
      · exact Or.inr ⟨sp2, hsp2, hc2⟩

theorem foldTopo_edges (cache : List (String × SpanData)) (kstr : String) :
    ∀ (l : List SpanData) (acc : TopoAcc),
      findCount ((l.foldl (topoStep cache) acc).edges) kstr =
        findCount acc.edges kstr +
          (l.filter (fun sp => edgeKeyWitness cache kstr sp)).length := by
  intro l
  induction l with
  | nil => simp
  | cons sp t ih =>
    intro acc
    rw [List.foldl_cons, ih (topoStep cache acc sp), topoStep_edges]
    rw [List.filter_cons]
    by_cases hw : edgeKeyWitness cache kstr sp
    · simp [hw]
      omega
    · simp [hw]

theorem foldTopo_edges_pos (cache : List (String × SpanData)) :
    ∀ (l : List SpanData) (acc : TopoAcc), (∀ e ∈ acc.edges, 0 < e.2.Count) →
      ∀ e ∈ (l.foldl (topoStep cache) acc).edges, 0 < e.2.Count := by
  intro l
  induction l with
  | nil =>
    intro acc h
    simpa using h
  | cons sp t ih =>
    intro acc h
    rw [List.foldl_cons]
    exact ih _ (topoStep_edges_pos cache acc sp h)

theorem containsSub_tail (x : Char) (t n : List Char)
    (h : containsSub (x :: t) n = false) : containsSub t n = false := by
  simp only [containsSub, Bool.or_eq_false_iff] at h
  exact h.2

theorem sepSplit_inj : ∀ (a c b d : List Char),
    containsSub a ['-', '>'] = false → containsSub c ['-', '>'] = false →
    a ++ '-' :: '>' :: b = c ++ '-' :: '>' :: d → a = c ∧ b = d := by
  intro a
  induction a with
  | nil =>
    intro c b d _ hc heq
    cases c with
    | nil =>
      refine ⟨rfl, ?_⟩
      simpa using heq
    | cons ch c2 =>
      simp only [List.nil_append, List.cons_append, List.cons.injEq] at heq
      obtain ⟨h1, h2⟩ := heq
      cases c2 with
      | nil => simp at h2
      | cons ch2 c3 =>
        simp only [List.cons_append, List.cons.injEq] at h2
        obtain ⟨h3, _⟩ := h2
        subst h1
        subst h3
        simp [containsSub, matchAt] at hc
  | cons x a2 ih =>
    intro c b d ha hc heq
    cases c with
    | nil =>
      simp only [List.cons_append, List.nil_append, List.cons.injEq] at heq
      obtain ⟨h1, h2⟩ := heq
      cases a2 with
      | nil => simp at h2
      | cons x2 a3 =>
        simp only [List.cons_append, List.cons.injEq] at h2
        obtain ⟨h3, _⟩ := h2
        subst h1
        subst h3
        simp [containsSub, matchAt] at ha
    | cons ch c2 =>
      simp only [List.cons_append, List.cons.injEq] at heq
      obtain ⟨h1, h2⟩ := heq
      obtain ⟨hac, hbd⟩ := ih c2 b d (containsSub_tail _ _ _ ha) (containsSub_tail _ _ _ hc) h2
      exact ⟨by rw [h1, hac], hbd⟩

theorem arrowKey_inj (p p2 c c2 : String)
    (hp : strContains p "->" = false) (hp2 : strContains p2 "->" = false)
    (heq : p ++ "->" ++ c = p2 ++ "->" ++ c2) : p = p2 ∧ c = c2 := by
  have hdata : p.data ++ '-' :: '>' :: c.data = p2.data ++ '-' :: '>' :: c2.data := by
    have h1 := congrArg String.data heq
    simpa [String.data_append] using h1
  have hsplit := sepSplit_inj p.data p2.data c.data c2.data hp hp2 hdata
  exact ⟨congrArg String.mk hsplit.1, congrArg String.mk hsplit.2⟩

theorem bumpEdge_entryOK (spans : List SpanData) (cache : List (String × SpanData))
    (k src tgt : String) (l : List (String × TopologyEdgeJSON))
    (hl : ∀ e ∈ l, edgeEntryOK spans cache e)
    (hnew : edgeEntryOK spans cache (k, ⟨src, tgt, 1⟩)) :
    ∀ e ∈ bumpEdge k src tgt l, edgeEntryOK spans cache e := by
  induction l with
  | nil =>
    intro e he
    simp only [bumpEdge, List.mem_singleton] at he
    subst he
    exact hnew
  | cons f t ih =>
    obtain ⟨k3, e3⟩ := f
    intro e he
    by_cases h3 : k = k3
    · simp only [bumpEdge, h3, if_pos, List.mem_cons] at he
      rcases he with rfl | he2
      · exact hl (k3, e3) (List.mem_cons_self _ _)
      · exact hl e (List.mem_cons_of_mem _ he2)
    · simp only [bumpEdge, h3, if_neg, not_false_iff, List.mem_cons] at he
      rcases he with rfl | he2
      · exact hl (k3, e3) (List.mem_cons_self _ _)
      · exact ih (fun e2 he3 => hl e2 (List.mem_cons_of_mem _ he3)) e he2

theorem topoStep_entryOK (spans : List SpanData) (cache : List (String × SpanData))
    (acc : TopoAcc) (span : SpanData) (hsp : span ∈ spans)
    (h : ∀ e ∈ acc.edges, edgeEntryOK spans cache e) :
    ∀ e ∈ (topoStep cache acc span).edges, edgeEntryOK spans cache e := by
  by_cases hp : span.parentSpanId = ""
  · simpa [topoStep, hp] using h
  · cases hf : findSpan cache span.parentSpanId with
    | none => simpa [topoStep, hp, hf] using h
    | some ps =>
      by_cases hs : ps.serviceName = span.serviceName
      · simpa [topoStep, hp, hf, hs] using h
      · simp only [topoStep, hp, ne_eq, not_false_iff, if_pos, hf, hs]
        refine bumpEdge_entryOK spans cache _ _ _ _ h ?_
        refine ⟨rfl, ⟨ps, ?_, rfl⟩, ⟨span, hsp, rfl⟩⟩
        exact findSpan_mem cache _ ps hf

theorem foldTopo_entryOK (spans : List SpanData) (cache : List (String × SpanData)) :
    ∀ l : List SpanData, (∀ sp ∈ l, sp ∈ spans) → ∀ acc : TopoAcc,
      (∀ e ∈ acc.edges, edgeEntryOK spans cache e) →
      ∀ e ∈ (l.foldl (topoStep cache) acc).edges, edgeEntryOK spans cache e := by
  intro l
  induction l with
  | nil =>
    intro _ acc h
    simpa using h
  | cons sp t ih =>
    intro hsub acc h
    rw [List.foldl_cons]
    exact ih (fun x hx => hsub x (List.mem_cons_of_mem _ hx)) _
      (topoStep_entryOK spans cache acc sp (hsub sp (List.mem_cons_self _ _)) h)

theorem keyWitness_eq_pairWitness (cache : List (String × SpanData)) (p c : String)
    (hp : strContains p "->" = false) (sp : SpanData)
    (hps : ∀ ps : SpanData, findSpan cache sp.parentSpanId = some ps →
      strContains ps.serviceName "->" = false) :
    edgeKeyWitness cache (p ++ "->" ++ c) sp = edgeWitness cache p c sp := by
  cases hf : findSpan cache sp.parentSpanId with
  | none => simp [edgeKeyWitness, edgeWitness, hf]
  | some ps =>
    rw [Bool.eq_iff_iff]
    simp only [edgeKeyWitness, edgeWitness, hf, ne_eq, Bool.and_eq_true,
      decide_eq_true_eq]
    constructor
    · rintro ⟨hpar, hne, hkey⟩
      obtain ⟨h1, h2⟩ := arrowKey_inj ps.serviceName p sp.serviceName c (hps ps hf) hp hkey
      refine ⟨hpar, ⟨h1, h2⟩, ?_⟩
      intro hpc
      exact hne (by rw [h1, h2, hpc])
    · rintro ⟨hpar, ⟨h1, h2⟩, hpc⟩
      refine ⟨hpar, ?_, by rw [h1, h2]⟩
      intro hcontr
      exact hpc (by rw [← h1, ← h2, hcontr])

theorem nodeContrib_true_iff (cache : List (String × SpanData)) (s : String) (sp : SpanData) :
    nodeContrib cache s sp = true ↔
      sp.serviceName = s ∨
        (sp.parentSpanId ≠ "" ∧ ∃ ps : SpanData,
          findSpan cache sp.parentSpanId = some ps ∧ ps.serviceName = s ∧
            ps.serviceName ≠ sp.serviceName) := by
  cases hf : findSpan cache sp.parentSpanId with
  | none => simp [nodeContrib, hf]
  | some ps =>
    simp [nodeContrib, hf]

/-! ### Claims -/

/-- C1: the claim says `X-Filtered-Count` is the number of spans
matching the predicates counted BEFORE pagination.  The code sets it
to `len(FilterSpans(...))`, which is counted AFTER pagination: on ten
spans of which two have status `Error`, `?status=error&limit=1` yields
header value 1 while the pre-pagination matched count is 2 (the
`X-Total-Count` part of the claim does hold: 10). -/
theorem C1_filtered_count_divergence :
    xFilteredCountTraces c1spans c1params = 1 ∧
    (c1spans.filter (fun s => matchesSpanFilters s c1params)).length = 2 ∧
    xTotalCountTraces c1spans = 10 := by decide

/-- C2: the claim says `/api/services` is the union of span, metric and
log service names with `""` and `"unknown"`-containing values excluded.
The handler actually returns the span service names verbatim: on a
store with one span of service `"unknown"` and one metric of service
`"alpha"`, the response is `["unknown"]` — it contains `"unknown"` and
misses `"alpha"` — while the uncalled `getAllServices` helper returns
`["alpha"]` exactly as the claim describes. -/
theorem C2_services_divergence :
    handleGetServicesBody c2spans = ["unknown"] ∧
    "unknown" ∈ handleGetServicesBody c2spans ∧
    "alpha" ∉ handleGetServicesBody c2spans ∧
    getAllServices c2spans c2metrics ([] : List LogData) = ["alpha"] := by decide

/-- C3 counterexample: responses are not byte-identical across runs.
The `/api/services` body is the key list of a Go map in iteration
order; on a store whose spans carry services `a` and `b`, both
`["a","b"]` and `["b","a"]` are possible bodies (both are permutations
of the canonical key list) and they differ, so two stores fed the same
batches can serialize different bytes. -/
theorem C3_counterexample :
    (["a", "b"] : List String).Perm (distinctServicesOfSpans c3spans) ∧
    (["b", "a"] : List String).Perm (distinctServicesOfSpans c3spans) ∧
    (["a", "b"] : List String) ≠ ["b", "a"] := by decide

/-- C3 amended: two runs over identical stores agree up to reordering
of the map-derived arrays: any two possible `/api/services` bodies,
topology node arrays and topology edge arrays (each a permutation of
the respective canonical list) are permutations of each other. -/
theorem C3_amended (spans : List SpanData) (cache : List (String × SpanData))
    (svc1 svc2 : List String) (nd1 nd2 : List (String × Nat))
    (ed1 ed2 : List (String × TopologyEdgeJSON))
    (h1 : svc1.Perm (distinctServicesOfSpans spans))
    (h2 : svc2.Perm (distinctServicesOfSpans spans))
    (h3 : nd1.Perm (topologyNodes spans cache))
    (h4 : nd2.Perm (topologyNodes spans cache))
    (h5 : ed1.Perm ((buildTopology spans cache).edges))
    (h6 : ed2.Perm ((buildTopology spans cache).edges)) :
    svc1.Perm svc2 ∧ nd1.Perm nd2 ∧ ed1.Perm ed2 :=
  ⟨h1.trans h2.symm, h3.trans h4.symm, h5.trans h6.symm⟩

/-- Witness for the amended C3 at a concrete store. -/
theorem C3_amended_witness :
    (["a", "b"] : List String).Perm ["b", "a"] ∧
    ([("a", 0), ("b", 0)] : List (String × Nat)).Perm [("a", 0), ("b", 0)] ∧
    ([] : List (String × TopologyEdgeJSON)).Perm [] :=
  C3_amended c3spans [] ["a", "b"] ["b", "a"] [("a", 0), ("b", 0)] [("a", 0), ("b", 0)]
    [] [] (by decide) (by decide) (by decide) (by decide) (by decide) (by decide)

/-- C4 counterexample: no received-at tie-break exists.  On two spans
of equal duration received at times 1 then 2, `sort_by=duration`
leaves them in input order, so the output violates the claimed
"ties ordered by received-at descending" (which would put the later
received span first). -/
theorem C4_counterexample :
    ¬ (sortSpans c4spans "duration" "asc").Pairwise
        (fun a b => spanDuration a < spanDuration b ∨
          (spanDuration a = spanDuration b ∧ b.receivedAt ≤ a.receivedAt)) := by
  decide

/-- C4 amended: for every requested sort key among `time`, `duration`,
`name` (empty defaulting to `time`) and order `asc` / `desc` (empty
defaulting to `desc`), the output of `sortSpans` is a permutation of
its input sorted by the requested key in the requested direction;
spans equal under the key appear in an order the algorithm determines,
with no received-at tie-break. -/
theorem C4_amended (spans : List SpanData) (sortBy sortOrder : String)
    (hb : sortBy ∈ (["time", "duration", "name", ""] : List String))
    (ho : sortOrder ∈ (["asc", "desc", ""] : List String)) :
    (sortSpans spans sortBy sortOrder).Perm spans ∧
    (sortSpans spans sortBy sortOrder).Pairwise (sortRelation sortBy sortOrder) := by
  refine ⟨sortSpans_perm spans sortBy sortOrder, ?_⟩
  refine (sortSpans_pairwise spans sortBy sortOrder).imp ?_
  intro a b hab
  fin_cases hb <;> fin_cases ho <;>
    simp_all [sortSwap, sortRelation, swapOf, not_lt]

/-- Witness for the amended C4 at a concrete input. -/
theorem C4_amended_witness :
    (sortSpans c4spans "time" "desc").Perm c4spans ∧
    (sortSpans c4spans "time" "desc").Pairwise (sortRelation "time" "desc") :=
  C4_amended c4spans "time" "desc" (by decide) (by decide)

/-- C5 counterexample: with a non-zero offset the filter engine is not
idempotent.  On two spans and `offset=1`, the first application keeps
one span and the second application drops it (offset 1 is at the end
of a one-element list), so re-applying changes the result. -/
theorem C5_counterexample :
    FilterSpans (FilterSpans c5spans c5params) c5params ≠
      FilterSpans c5spans c5params := by decide

/-- C5 amended: for every filter descriptor whose pagination offset is
0, `FilterSpans` is idempotent: the survivors still match every
predicate, the sorted order is already sorted, and a zero-offset page
of a list no longer than the limit is the whole list. -/
theorem C5_amended (spans : List SpanData) (params : TraceFilterParams)
    (hoff : params.Pagination.Offset = 0) :
    FilterSpans (FilterSpans spans params) params = FilterSpans spans params := by
  have hpag : ∀ l : List SpanData,
      paginateSpans l params.Pagination = l.take params.Pagination.Limit := by
    intro l
    rw [paginateSpans_eq, hoff, List.drop_zero]
  unfold FilterSpans
  rw [hpag, hpag]
  have hmem : ∀ x ∈ (sortSpans (spans.filter fun s => matchesSpanFilters s params)
      params.SortBy params.SortOrder).take params.Pagination.Limit,
      matchesSpanFilters x params = true := by
    intro x hx
    have hx2 : x ∈ spans.filter (fun s => matchesSpanFilters s params) :=
      ((sortSpans_perm _ _ _).mem_iff).mp (List.mem_of_mem_take hx)
    simpa using List.of_mem_filter hx2
  rw [List.filter_eq_self.mpr hmem]
  rw [sortSpans_of_pairwise _ _ _
    (List.Pairwise.sublist (List.take_sublist _ _) (sortSpans_pairwise _ _ _))]
  rw [List.take_take, min_self]

/-- Witness for the amended C5 at a concrete input. -/
theorem C5_amended_witness :
    FilterSpans (FilterSpans c5spans (traceParamsTimeOnly none none))
        (traceParamsTimeOnly none none) =
      FilterSpans c5spans (traceParamsTimeOnly none none) :=
  C5_amended c5spans (traceParamsTimeOnly none none) rfl

/-- C6: for every span list and log list, every page limit `L > 0` and
enough pages to cover the list (`k` pages with `length ≤ k·L`), the
concatenation of the pages at offsets `0, L, 2L, …` is the whole list
in order, and every page whose offset is at or beyond the length is
empty. -/
theorem C6_pagination_totality (L k : Nat) (l : List SpanData) (lg : List LogData)
    (_hL : 0 < L) :
    (l.length ≤ k * L →
      ((List.range k).map (fun i => paginateSpans l ⟨i * L, L⟩)).flatten = l) ∧
    (lg.length ≤ k * L →
      ((List.range k).map (fun i => paginateLogs lg ⟨i * L, L⟩)).flatten = lg) ∧
    (∀ off lim : Nat, l.length ≤ off → paginateSpans l ⟨off, lim⟩ = []) ∧
    (∀ off lim : Nat, lg.length ≤ off → paginateLogs lg ⟨off, lim⟩ = []) := by
  refine ⟨?_, ?_, ?_, ?_⟩
  · intro hk
    simp only [paginateSpans_eq]
    exact joinPages L k l hk
  · intro hk
    simp only [paginateLogs_eq]
    exact joinPages L k lg hk
  · intro off lim h
    unfold paginateSpans
    rw [if_pos h]
  · intro off lim h
    unfold paginateLogs
    rw [if_pos h]

/-- Witness for C6: three spans, limit 2, two pages. -/
theorem C6_pagination_totality_witness :
    ((List.range 2).map (fun i => paginateSpans c6spans ⟨i * 2, 2⟩)).flatten = c6spans :=
  (C6_pagination_totality 2 2 c6spans c6logs (by decide)).1 (by decide)

/-- C7 counterexample: the code does not key edges by the service
pair.  `buildTopology` keys its edges map by the string
`parentService + "->" + serviceName`, so with a consistent span-id
index the two distinct witnessed pairs `("a", "b->c")` and
`("a->b", "c")` (one witnessing span each) collapse into the single
entry `("a->b->c", {Source:"a", Target:"b->c", Count:2})`: there is no
edge for the pair `("a->b", "c")` and the stored count 2 is not the
number of spans witnessing the pair `("a", "b->c")`. -/
theorem C7_counterexample :
    (∀ e ∈ c7badcache, e.2 ∈ c7badspans) ∧
    (c7badspans.filter (fun sp => edgeWitness c7badcache "a" "b->c" sp)).length = 1 ∧
    (c7badspans.filter (fun sp => edgeWitness c7badcache "a->b" "c" sp)).length = 1 ∧
    (buildTopology c7badspans c7badcache).edges =
      [("a->b->c", ⟨"a", "b->c", 2⟩)] := by decide

/-- C7 amended: when the span-id index only resolves to spans of the
current window (the spec's index-consistency invariant, first
hypothesis), the topology has one node per distinct service of the
span array and every node has depth 0; the edges map is keyed by the
string `parentService ++ "->" ++ childService`, and the count stored
under any key equals the number of spans witnessing that key.
Provided additionally that no stored service name contains the literal
`"->"` (second hypothesis), the original per-pair reading holds for
every such pair: the count at the pair's key is the number of spans
witnessing the pair, the key is present exactly when some span
witnesses the pair (so spans with absent or unresolvable parents
contribute no edge), and the entry at the key carries that pair as its
`Source` and `Target`. -/
theorem C7_amended (spans : List SpanData) (cache : List (String × SpanData))
    (hcons : ∀ e ∈ cache, e.2 ∈ spans)
    (hna : ∀ sp ∈ spans, strContains sp.serviceName "->" = false) :
    (∀ s : String,
      ((s, 0) ∈ topologyNodes spans cache ↔ s ∈ spans.map SpanData.serviceName)) ∧
    (∀ nd ∈ topologyNodes spans cache, nd.2 = 0) ∧
    (∀ kstr : String,
      findCount (buildTopology spans cache).edges kstr =
        (spans.filter (fun sp => edgeKeyWitness cache kstr sp)).length) ∧
    (∀ p c : String, strContains p "->" = false → strContains c "->" = false →
      findCount (buildTopology spans cache).edges (p ++ "->" ++ c) =
        (spans.filter (fun sp => edgeWitness cache p c sp)).length) ∧
    (∀ p c : String, strContains p "->" = false → strContains c "->" = false →
      ((p ++ "->" ++ c) ∈ (buildTopology spans cache).edges.map Prod.fst ↔
        ∃ sp ∈ spans, edgeWitness cache p c sp = true)) ∧
    (∀ p c : String, strContains p "->" = false → strContains c "->" = false →
      ∀ entry ∈ (buildTopology spans cache).edges, entry.1 = p ++ "->" ++ c →
        entry.2.Source = p ∧ entry.2.Target = c) := by
  have hkeycount : ∀ kstr : String,
      findCount (buildTopology spans cache).edges kstr =
        (spans.filter (fun sp => edgeKeyWitness cache kstr sp)).length := by
    intro kstr
    have h := foldTopo_edges cache kstr spans ⟨[], []⟩
    simpa [buildTopology, findCount] using h
  have hpos : ∀ e ∈ (buildTopology spans cache).edges, 0 < e.2.Count :=
    foldTopo_edges_pos cache spans ⟨[], []⟩ (by intro e he; simp at he)
  have hparr : ∀ sp ∈ spans, ∀ ps : SpanData,
      findSpan cache sp.parentSpanId = some ps →
        strContains ps.serviceName "->" = false := by
    intro sp _ ps hf
    have hmem := findSpan_mem cache _ ps hf
    obtain ⟨e, he, hesp⟩ := List.mem_map.mp hmem
    exact hna ps (hesp ▸ hcons e he)
  have hpair : ∀ p c : String, strContains p "->" = false →
      strContains c "->" = false →
      findCount (buildTopology spans cache).edges (p ++ "->" ++ c) =
        (spans.filter (fun sp => edgeWitness cache p c sp)).length := by
    intro p c hp _hc
    rw [hkeycount]
    congr 1
    exact List.filter_congr
      (fun sp hsp => keyWitness_eq_pairWitness cache p c hp sp (hparr sp hsp))
  refine ⟨?_, ?_, hkeycount, hpair, ?_, ?_⟩
  · intro s
    have hnodes := foldTopo_nodes cache spans ⟨[], []⟩ s
    have hmem : (s, 0) ∈ topologyNodes spans cache ↔
        s ∈ (buildTopology spans cache).nodes := by
      simp [topologyNodes]
    rw [hmem, show (buildTopology spans cache).nodes =
      ((spans.foldl (topoStep cache) ⟨[], []⟩ : TopoAcc)).nodes from rfl, hnodes]
    simp only [List.not_mem_nil, false_or]
    constructor
    · rintro ⟨sp, hsp, hc2⟩
      rcases (nodeContrib_true_iff cache s sp).mp hc2 with hown | ⟨_, ps, hf, hps, _⟩
      · exact List.mem_map.mpr ⟨sp, hsp, hown⟩
      · have hps2 : ps ∈ cache.map Prod.snd := findSpan_mem cache _ ps hf
        obtain ⟨e, he, hesp⟩ := List.mem_map.mp hps2
        exact List.mem_map.mpr ⟨ps, hesp ▸ hcons e he, hps⟩
    · intro hs
      obtain ⟨sp, hsp, hown⟩ := List.mem_map.mp hs
      exact ⟨sp, hsp, (nodeContrib_true_iff cache s sp).mpr (Or.inl hown)⟩
  · intro nd hnd
    obtain ⟨a, _, rfl⟩ := List.mem_map.mp hnd
    rfl
  · intro p c hp hc
    rw [← findCount_pos_iff _ hpos (p ++ "->" ++ c), hpair p c hp hc]
    constructor
    · intro h
      have hne : (spans.filter (fun sp => edgeWitness cache p c sp)) ≠ [] := by
        intro hnil
        rw [hnil] at h
        simp at h
      obtain ⟨sp, hsp⟩ := List.exists_mem_of_ne_nil _ hne
      exact ⟨sp, List.mem_of_mem_filter hsp, List.of_mem_filter hsp⟩
    · rintro ⟨sp, hsp, hw⟩
      have hmem2 : sp ∈ spans.filter (fun sp => edgeWitness cache p c sp) :=
        List.mem_filter.mpr ⟨hsp, hw⟩
      have hlen := List.length_pos.mpr (List.ne_nil_of_mem hmem2)
      omega
  · intro p c hp _hc entry hentry hkey
    have hOK : edgeEntryOK spans cache entry :=
      foldTopo_entryOK spans cache spans (fun x hx => hx) ⟨[], []⟩
        (by intro e he; simp at he) entry hentry
    obtain ⟨hk, ⟨ps, hpsmem, hsrc⟩, _⟩ := hOK
    have hsfree : strContains entry.2.Source "->" = false := by
      rw [hsrc]
      obtain ⟨e, he, hesp⟩ := List.mem_map.mp hpsmem
      exact hna ps (hesp ▸ hcons e he)
    have heq2 : entry.2.Source ++ "->" ++ entry.2.Target = p ++ "->" ++ c := by
      rw [← hk, hkey]
    exact arrowKey_inj entry.2.Source p entry.2.Target c hsfree hp heq2

/-- Witness for the amended C7 at the `front → back → db` scenario
(arrow-free service names, consistent index). -/
theorem C7_amended_witness :
    findCount (buildTopology c7spans c7cache).edges ("front" ++ "->" ++ "back") =
      (c7spans.filter (fun sp => edgeWitness c7cache "front" "back" sp)).length :=
  (C7_amended c7spans c7cache (by decide) (by decide)).2.2.2.1 "front" "back"
    (by decide) (by decide)

/-- C8: `min_severity` maps names case-insensitively (`trace`→1,
`debug`→5, `info`→9, `warn`→13, `error`→17, `fatal`→21, anything
else→0); with a positive threshold `t` a log passes the
minimum-severity predicate iff its severity number is at least `t`,
and with threshold 0 (unknown name or absent parameter) every log
passes.  The Go `switch` runs on `strings.ToLower(name)`; that Unicode
lowering is external library code, so the theorem holds for EVERY
lowering function that is idempotent and fixes the six lowercase
names — properties Go's `strings.ToLower` has — and the map depends
only on the lowered name (first conjunct: case-insensitivity). -/
theorem C8_min_severity (low : String → String)
    (hidem : ∀ s : String, low (low s) = low s)
    (hfix : ∀ s ∈ (["trace", "debug", "info", "warn", "error", "fatal"] : List String),
      low s = s) :
    (∀ name : String,
      severityNameToNumberWith low name = severityNameToNumberWith low (low name)) ∧
    severityNameToNumberWith low "trace" = 1 ∧
    severityNameToNumberWith low "debug" = 5 ∧
    severityNameToNumberWith low "info" = 9 ∧
    severityNameToNumberWith low "warn" = 13 ∧
    severityNameToNumberWith low "error" = 17 ∧
    severityNameToNumberWith low "fatal" = 21 ∧
    (∀ name : String,
      low name ∉ (["trace", "debug", "info", "warn", "error", "fatal"] : List String) →
      severityNameToNumberWith low name = 0) ∧
    (∀ (lg : LogData) (t : Int), 0 < t →
      (matchesLogFilters lg (logParamsMinSev t) = true ↔ t ≤ lg.severityNumber)) ∧
    (∀ lg : LogData, matchesLogFilters lg (logParamsMinSev 0) = true) := by
  refine ⟨?_, ?_, ?_, ?_, ?_, ?_, ?_, ?_, ?_, ?_⟩
  · intro name
    simp only [severityNameToNumberWith, hidem]
  · have h := hfix "trace" (by simp)
    simp [severityNameToNumberWith, h]
  · have h := hfix "debug" (by simp)
    simp [severityNameToNumberWith, h]
  · have h := hfix "info" (by simp)
    simp [severityNameToNumberWith, h]
  · have h := hfix "warn" (by simp)
    simp [severityNameToNumberWith, h]
  · have h := hfix "error" (by simp)
    simp [severityNameToNumberWith, h]
  · have h := hfix "fatal" (by simp)
    simp [severityNameToNumberWith, h]
  · intro name h
    simp only [List.mem_cons, List.not_mem_nil, or_false, not_or] at h
    obtain ⟨h1, h2, h3, h4, h5, h6⟩ := h
    simp only [severityNameToNumberWith, h1, h2, h3, h4, h5, h6, if_false]
  · intro lg t ht
    simp [matchesLogFilters, logParamsMinSev, ht]
  · intro lg
    simp [matchesLogFilters, logParamsMinSev]

/-- Witness for C8 with the lowering instantiated to the ASCII
fragment: `bogus` disables the threshold; `warn`-level 13 filters. -/
theorem C8_min_severity_witness :
    severityNameToNumberWith toLowerStr "bogus" = 0 ∧
    (matchesLogFilters c8log (logParamsMinSev 13) = true ↔ 13 ≤ c8log.severityNumber) ∧
    matchesLogFilters c8log (logParamsMinSev 0) = true :=
  ⟨(C8_min_severity toLowerStr toLowerStr_idem (by decide)).2.2.2.2.2.2.2.1 "bogus"
      (by decide),
   (C8_min_severity toLowerStr toLowerStr_idem (by decide)).2.2.2.2.2.2.2.2.1 c8log 13
      (by decide),
   (C8_min_severity toLowerStr toLowerStr_idem (by decide)).2.2.2.2.2.2.2.2.2 c8log⟩

/-- C9: pagination parsing: the offset is 0 when the parameter is
absent (`goAtoi "" = none`), unparseable or negative, and the parsed
value otherwise; the limit is 100 when absent, unparseable or
non-positive, the parsed value when in `1..1000`, and clamped to 1000
above that. -/
theorem C9_parse_pagination (offStr limStr : String) :
    (goAtoi offStr = none → (ParsePaginationParams offStr limStr).Offset = 0) ∧
    (∀ v : Int, goAtoi offStr = some v → v < 0 →
      (ParsePaginationParams offStr limStr).Offset = 0) ∧
    (∀ v : Int, goAtoi offStr = some v → 0 ≤ v →
      (ParsePaginationParams offStr limStr).Offset = v.toNat) ∧
    (goAtoi limStr = none → (ParsePaginationParams offStr limStr).Limit = 100) ∧
    (∀ v : Int, goAtoi limStr = some v → v ≤ 0 →
      (ParsePaginationParams offStr limStr).Limit = 100) ∧
    (∀ v : Int, goAtoi limStr = some v → 0 < v → v ≤ 1000 →
      (ParsePaginationParams offStr limStr).Limit = v.toNat) ∧
    (∀ v : Int, goAtoi limStr = some v → 1000 < v →
      (ParsePaginationParams offStr limStr).Limit = 1000) := by
  refine ⟨?_, ?_, ?_, ?_, ?_, ?_, ?_⟩
  · intro h
    simp [ParsePaginationParams, h]
  · intro v h hv
    simp [ParsePaginationParams, h, not_le.mpr hv]
  · intro v h hv
    by_cases ho : offStr = ""
    · subst ho
      simp [goAtoi] at h
    · simp [ParsePaginationParams, h, hv, ho]
  · intro h
    simp [ParsePaginationParams, h]
  · intro v h hv
    simp [ParsePaginationParams, h, not_lt.mpr hv]
  · intro v h hv hv2
    by_cases ho : limStr = ""
    · subst ho
      simp [goAtoi] at h
    · simp [ParsePaginationParams, h, hv, not_lt.mpr hv2, ho]
  · intro v h hv
    by_cases ho : limStr = ""
    · subst ho
      simp [goAtoi] at h
    · simp [ParsePaginationParams, h, lt_trans Int.zero_lt_one (lt_of_le_of_lt (by norm_num) hv), hv, ho]

/-- Witness for C9: `offset=7`, `limit=2000`. -/
theorem C9_parse_pagination_witness :
    (ParsePaginationParams "7" "2000").Offset = (7 : Int).toNat ∧
    (ParsePaginationParams "7" "2000").Limit = 1000 :=
  ⟨(C9_parse_pagination "7" "2000").2.2.1 7 (by decide) (by decide),
   (C9_parse_pagination "7" "2000").2.2.2.2.2.2 2000 (by decide) (by decide)⟩

/-- C10: the time-range predicates are boundary-inclusive: with both
bounds configured and every other predicate disabled, a span passes
iff `start ≤ receivedAt ≤ end`, a log iff `start ≤ timestamp ≤ end`, a
metric iff `start ≤ receivedAt ≤ end` — only records strictly before
the start or strictly after the end are rejected, so a record at
either bound passes. -/
theorem C10_time_boundaries (s e : Int) (sp : SpanData) (lg : LogData) (m : MetricData) :
    (matchesSpanFilters sp (traceParamsTimeOnly (some s) (some e)) = true ↔
      s ≤ sp.receivedAt ∧ sp.receivedAt ≤ e) ∧
    (matchesLogFilters lg (logParamsTimeOnly (some s) (some e)) = true ↔
      s ≤ lg.timestamp ∧ lg.timestamp ≤ e) ∧
    (matchesMetricFilters m (metricParamsTimeOnly (some s) (some e)) = true ↔
      s ≤ m.receivedAt ∧ m.receivedAt ≤ e) := by
  refine ⟨?_, ?_, ?_⟩ <;>
    simp [matchesSpanFilters, matchesLogFilters, matchesMetricFilters,
      traceParamsTimeOnly, logParamsTimeOnly, metricParamsTimeOnly]

end OtelTui
